import Mathlib

/-!
Verification of the config-reconciliation tool (`src/configs/main.py` and
`src/configs/config_file.py`).

The embedding models Python strings as `List Char`, filesystem state as a map
from paths (component lists) to optional file contents, the HTTP fetch as an
`Option (List Char)` input (`none` = request exception), and the interactive
confirmation collaborator as an oracle `Prompt → Bool`.  Each per-file run
additionally records the writes it performs and the prompts it presents, so
that frame conditions ("no write occurs", "no prompt is shown") are directly
statable.
-/

set_option maxRecDepth 10000

/-! ## Python string primitives -/

/-- Python `str.strip()` whitespace table (ASCII part). -/
def pyIsSpace (c : Char) : Bool :=
  (c == ' ') || (c == '\t') || (c == '\n') || (c == '\x0d') || (c == '\x0b') || (c == '\x0c')

/-- Python `s.strip()`: drop leading and trailing whitespace. -/
def pyStrip (l : List Char) : List Char :=
  ((l.dropWhile pyIsSpace).reverse.dropWhile pyIsSpace).reverse

/-- Python substring test `needle in hay`. -/
def pyIn (needle : List Char) : List Char → Bool
  | [] => needle.isEmpty
  | c :: t => needle.isPrefixOf (c :: t) || pyIn needle t

/-- Worker for `splitlines`; `acc` holds the current line reversed. -/
def splitlinesGo : List Char → List Char → List (List Char)
  | [], acc => if acc.isEmpty then [] else [acc.reverse]
  | c :: rest, acc =>
    if c = '\n' then acc.reverse :: splitlinesGo rest []
    else splitlinesGo rest (c :: acc)

/-- Python `str.splitlines()` restricted to the `\n` separator, which is the
only line boundary occurring in the text files this tool manages. -/
def splitlines (s : List Char) : List (List Char) :=
  splitlinesGo s []

/-- Python `"\n".join(lines)`. -/
def joinLines : List (List Char) → List Char
  | [] => []
  | [l] => l
  | l :: l₂ :: rest => l ++ '\n' :: joinLines (l₂ :: rest)

/-- Worker for Python `str.split(sep)` with a non-empty separator; the fuel is
an upper bound on the scanned length so the recursion is structural. -/
def splitOnGo (sep : List Char) : Nat → List Char → List Char → List (List Char)
  | _, [], acc => [acc.reverse]
  | 0, s, acc => [acc.reverse ++ s]
  | fuel + 1, c :: rest, acc =>
    if sep.isPrefixOf (c :: rest) then
      acc.reverse :: splitOnGo sep fuel (rest.drop (sep.length - 1)) []
    else
      splitOnGo sep fuel rest (c :: acc)

/-- Python `s.split(sep)` for a non-empty separator `sep`. -/
def splitOnSub (sep s : List Char) : List (List Char) :=
  splitOnGo sep s.length s []

/-- Worker splitting on a single character, keeping empty pieces
(Python `str.split` semantics, used for path components). -/
def splitOnCharGo (sep : Char) : List Char → List Char → List (List Char)
  | [], acc => [acc.reverse]
  | c :: rest, acc =>
    if c = sep then acc.reverse :: splitOnCharGo sep rest []
    else splitOnCharGo sep rest (c :: acc)

/-! ## FsPath model (`config_file.py`)

A `FsPath` is its list of components.  `pathlib` operations used by the source:
`/` appends the components of the right operand, `.name` is the last
component, `.suffix` is the final extension of the name. -/

abbrev FsPath := List String

/-- Components of a name string, splitting on the directory separator. -/
def pathComponentsOf (s : String) : List String :=
  (splitOnCharGo '/' s.toList []).map (fun cs => String.mk cs)

/-- The repository root computed in `ConfigFile.repo_root` (three `.parent`
steps up from the module file).  Its concrete location is irrelevant to every
path relationship, so it is modelled as the empty component list. -/
def repoRoot : FsPath := []

/-- Python `FsPath.name`: the last component. -/
def pathNameOf (p : FsPath) : String := p.getLastD ""

/-- Worker: index of the last `'.'` (Python `str.rfind('.')`). -/
def lastDotIdxGo : List Char → Nat → Option Nat → Option Nat
  | [], _, best => best
  | c :: rest, i, best =>
    lastDotIdxGo rest (i + 1) (if c = '.' then some i else best)

/-- Python `FsPath(filename).suffix`: the extension of the final component,
empty unless the last dot is at an interior position of the name. -/
def pathSuffix (filename : String) : String :=
  let nm := (pathComponentsOf filename).getLastD ""
  let cs := nm.toList
  match lastDotIdxGo cs 0 none with
  | none => ""
  | some i => if 0 < i ∧ i < cs.length - 1 then String.mk (cs.drop i) else ""

/-- `ConfigFile` dataclass: `name` plus the derived url and paths computed in
`__post_init__` (the eager `mkdir` of the cache parent has no bearing on any
claim and is not modelled). -/
structure ConfigFile where
  name : String
  url : String
  local_path : FsPath
  repo_path : FsPath
  deriving DecidableEq, Repr

/-- `CONFIG_ROOT` class constant. -/
def CONFIG_ROOT : String :=
  "https://raw.githubusercontent.com/dannystewart/configs/refs/heads/main"

/-- `ConfigFile.__post_init__`: `url = CONFIG_ROOT/name`,
`local_path = repo_root / name`, `repo_path = repo_root / local_path.name`. -/
def mkConfigFile (name : String) : ConfigFile :=
  let lp : FsPath := repoRoot ++ pathComponentsOf name
  { name := name
    url := CONFIG_ROOT ++ "/" ++ name
    local_path := lp
    repo_path := repoRoot ++ [pathNameOf lp] }

/-- The managed files, `CodeConfigs.CONFIGS`. -/
def ruffConfig : ConfigFile := mkConfigFile "ruff.toml"

/-- Second managed file. -/
def mypyConfig : ConfigFile := mkConfigFile "mypy.ini"

/-- `CodeConfigs.CONFIGS`. -/
def CONFIGS : List ConfigFile := [ruffConfig, mypyConfig]

/-! ## Version marker machinery (`main.py`) -/

/-- The literal `"Config version:"`. -/
def CFGV : List Char := "Config version:".toList

/-- The literal `"Config version: "` (with the trailing space of the
f-string). -/
def CFGVS : List Char := "Config version: ".toList

/-- The literal `"auto-managed"`. -/
def AM : List Char := "auto-managed".toList

/-- The literal `"(auto-managed)"`. -/
def AMP : List Char := "(auto-managed)".toList

/-- The literal `" (auto-managed)"`. -/
def AMS : List Char := " (auto-managed)".toList

/-- The repeated per-line test `"Config version:" in line and "auto-managed"
in line`. -/
def isMarkerLine (l : List Char) : Bool := pyIn CFGV l && pyIn AM l

/-- First marker line of a line list (the scan loop of
`extract_version_from_file`). -/
def findMarkerLine : List (List Char) → Option (List Char)
  | [] => none
  | l :: rest => if isMarkerLine l then some l else findMarkerLine rest

/-- Index of the first marker line (the `enumerate` loop of
`add_version_to_content`). -/
def findMarkerIdx : List (List Char) → Option Nat
  | [] => none
  | l :: rest =>
    if isMarkerLine l then some 0 else (findMarkerIdx rest).map (· + 1)

/-- `VERSION_COMMENT_FORMAT.get(suffix, ("# ", ""))`. -/
def versionCommentFormat (suffix : String) : String × String :=
  if suffix = ".ini" then ("; ", "")
  else if suffix = ".json" then ("// ", "")
  else if suffix = ".py" then ("# ", "")
  else if suffix = ".toml" then ("# ", "")
  else if suffix = ".yaml" then ("# ", "")
  else if suffix = ".yml" then ("# ", "")
  else ("# ", "")

/-- `self.version_info.current or "dev"`: Python `or` falls through on the
falsy values `None` and `""`. -/
def orDev (vcur : Option (List Char)) : List Char :=
  match vcur with
  | none => "dev".toList
  | some v => if v.isEmpty then "dev".toList else v

/-- `line.split("Config version:")[1].split("(auto-managed)")[0].strip()`.
On a line that satisfies `isMarkerLine` the index `[1]` exists (the separator
occurs), so the `IndexError` handler of the source is unreachable and the
defaulted list accesses below are exact. -/
def extractFromMarkerLine (l : List Char) : List Char :=
  pyStrip (((splitOnSub AMP ((splitOnSub CFGV l).getD 1 [])).getD 0 []))

/-- Pure core of `extract_version_from_file`: scan the lines for the first
marker line and parse the version out of it. -/
def extractVersionFromContent (content : List Char) : Option (List Char) :=
  (findMarkerLine (splitlines content)).map extractFromMarkerLine

/-- `add_version_to_content`. -/
def addVersionToContent (vcur : Option (List Char)) (content : List Char)
    (filename : String) : List Char :=
  let fmt := versionCommentFormat (pathSuffix filename)
  let cs := fmt.1.toList
  let ce := fmt.2.toList
  let v := orDev vcur
  let vline := cs ++ CFGVS ++ v ++ AMS ++ ce ++ ['\n']
  let lines := splitlines content
  match findMarkerIdx lines with
  | some i => joinLines (lines.set i (pyStrip vline))
  | none => vline ++ '\n' :: content

/-- `is_content_identical`: compare the line lists after removing marker
lines. -/
def isContentIdentical (c1 c2 : List Char) : Bool :=
  ((splitlines c1).filter (fun l => !(isMarkerLine l)))
    == ((splitlines c2).filter (fun l => !(isMarkerLine l)))

/-- Number of marker lines in a content blob (used to state the at-most-one
marker invariant). -/
def markerCount (content : List Char) : Nat :=
  ((splitlines content).filter (fun l => isMarkerLine l)).length

/-! ## Filesystem, prompts and the reconciler (`CodeConfigs`) -/

/-- Filesystem state: optional text content per path. -/
abbrev FS := FsPath → Option (List Char)

/-- `Path.write_text` (creates or overwrites). -/
def fsWrite (fs : FS) (p : FsPath) (v : List Char) : FS :=
  fun q => if q = p then some v else fs q

/-- The four `confirm_action` call sites, identified by the data interpolated
into their message strings. -/
inductive Prompt where
  | updateVersion (name : String) (oldV : Option (List Char)) (newV : List Char)
  | updateConfig (name : String)
  | createConfig (name : String)
  | fallback (name : String)
  deriving DecidableEq, Repr

/-- Outcome of one helper call: the returned boolean, the filesystem after it,
the writes it performed and the prompts it presented (with their answers). -/
structure ActionOut where
  ok : Bool
  fs : FS
  writes : List (FsPath × List Char)
  prompts : List (Prompt × Bool)

/-- `extract_version_from_file` (returns `None` when the file is missing). -/
def extractVersionFromFs (fs : FS) (p : FsPath) : Option (List Char) :=
  match fs p with
  | none => none
  | some content => extractVersionFromContent content

/-- `get_repo_path_for_config`.  The not-found branch models the source's
string replacement of the parent directory by the first config's repository
parent at component granularity; it is unreachable for managed paths. -/
def getRepoPathForConfig (configs : List ConfigFile) (p : FsPath) : FsPath :=
  match configs.find? (fun c => c.local_path == p) with
  | some c => c.repo_path
  | none =>
    match configs with
    | [] => p
    | c0 :: _ => c0.repo_path.dropLast ++ p.drop (p.length - 1)

/-- Python truthiness of `Optional[str]`: `None` and `""` are falsy.  This is
the test of the walrus branch `if content := self.fetch_remote_content(...)`. -/
def truthyFetch : Option (List Char) → Bool
  | none => false
  | some c => !c.isEmpty

/-- Python truthiness test `not config_version` for `Optional[str]`. -/
def pyFalsyOpt : Option (List Char) → Bool
  | none => true
  | some s => s.isEmpty

/-- `needs_update`. -/
def needsUpdate (fs : FS) (vcur : Option (List Char)) (p : FsPath) : Bool :=
  match fs p with
  | none => true
  | some content =>
    let cv := extractVersionFromContent content
    let cur := orDev vcur
    if pyFalsyOpt cv || !(cv == some cur) then true
    else
      match fs (getRepoPathForConfig CONFIGS p) with
      | none => true
      | some repoContent => !(isContentIdentical content repoContent)

/-- `update_existing_config` (the caller guarantees `local_path` exists; the
diff display of the interactive branch carries no state and is not recorded). -/
def updateExistingConfig (auto : Bool) (vcur : Option (List Char))
    (oracle : Prompt → Bool) (cfg : ConfigFile) (content : List Char)
    (fs : FS) : ActionOut :=
  let current := (fs cfg.local_path).getD []
  let currentVersion := extractVersionFromFs fs cfg.local_path
  let newVersion := orDev vcur
  if isContentIdentical current content then
    if currentVersion = some newVersion then
      ⟨false, fs, [], []⟩
    else if auto then
      ⟨true, fsWrite fs cfg.local_path content, [(cfg.local_path, content)], []⟩
    else
      let p := Prompt.updateVersion cfg.name currentVersion newVersion
      if oracle p then
        ⟨true, fsWrite fs cfg.local_path content, [(cfg.local_path, content)], [(p, true)]⟩
      else
        ⟨false, fs, [], [(p, false)]⟩
  else if auto then
    ⟨true, fsWrite fs cfg.local_path content, [(cfg.local_path, content)], []⟩
  else
    let p := Prompt.updateConfig cfg.name
    if oracle p then
      ⟨true, fsWrite fs cfg.local_path content, [(cfg.local_path, content)], [(p, true)]⟩
    else
      ⟨false, fs, [], [(p, false)]⟩

/-- `create_new_config`. -/
def createNewConfig (auto : Bool) (oracle : Prompt → Bool) (cfg : ConfigFile)
    (content : List Char) (fs : FS) : ActionOut :=
  if auto then
    ⟨true, fsWrite fs cfg.local_path content, [(cfg.local_path, content)], []⟩
  else
    let p := Prompt.createConfig cfg.name
    if oracle p then
      ⟨true, fsWrite fs cfg.local_path content, [(cfg.local_path, content)], [(p, true)]⟩
    else
      ⟨false, fs, [], [(p, false)]⟩

/-- `use_fallback_config`.  Note that, unlike the update and create helpers,
the source passes no `auto_confirm` here: the prompt is unconditional whenever
a local copy exists. -/
def useFallbackConfig (oracle : Prompt → Bool) (cfg : ConfigFile) (fs : FS) :
    ActionOut :=
  match fs cfg.repo_path with
  | none => ⟨false, fs, [], []⟩
  | some d =>
    if (fs cfg.local_path).isSome then
      let p := Prompt.fallback cfg.name
      if oracle p then
        ⟨true, fsWrite fs cfg.local_path d, [(cfg.local_path, d)], [(p, true)]⟩
      else
        ⟨false, fs, [], [(p, false)]⟩
    else
      ⟨true, fsWrite fs cfg.local_path d, [(cfg.local_path, d)], []⟩

/-- Which arm of the walrus branch a file took. -/
inductive Route where
  | stamped
  | fallback
  deriving DecidableEq, Repr

/-- How one file was categorized by `update_configs`. -/
inductive Cat where
  | updated
  | unchanged
  | failed
  deriving DecidableEq, Repr

/-- Outcome of processing one managed file in the `update_configs` loop. -/
structure FileResult where
  cat : Cat
  fs : FS
  writes : List (FsPath × List Char)
  prompts : List (Prompt × Bool)
  route : Route

/-- One iteration of the `update_configs` loop for `cfg`, given the fetch
result for its url. -/
def processConfig (auto : Bool) (vcur : Option (List Char))
    (oracle : Prompt → Bool) (fetchRes : Option (List Char))
    (cfg : ConfigFile) (fs : FS) : FileResult :=
  if truthyFetch fetchRes then
    let content := fetchRes.getD []
    let vc := addVersionToContent vcur content cfg.name
    let fs1 := fsWrite fs cfg.repo_path vc
    let w0 := [(cfg.repo_path, vc)]
    if (fs1 cfg.local_path).isSome then
      if needsUpdate fs1 vcur cfg.local_path then
        let r := updateExistingConfig auto vcur oracle cfg vc fs1
        ⟨if r.ok then .updated else .unchanged, r.fs, w0 ++ r.writes, r.prompts, .stamped⟩
      else
        ⟨.unchanged, fs1, w0, [], .stamped⟩
    else
      let r := createNewConfig auto oracle cfg vc fs1
      ⟨if r.ok then .updated else .unchanged, r.fs, w0 ++ r.writes, r.prompts, .stamped⟩
  else
    let r := useFallbackConfig oracle cfg fs
    ⟨if r.ok then .updated else .failed, r.fs, r.writes, r.prompts, .fallback⟩

/-- Outputs of a full `update_configs` run. -/
structure RunOut where
  updated : List String
  failed : List String
  unchanged : List String
  fs : FS
  writes : List (FsPath × List Char)
  prompts : List (Prompt × Bool)

/-- The `update_configs` loop over a list of configs, threading the
filesystem. -/
def updateConfigsLoop (auto : Bool) (vcur : Option (List Char))
    (oracle : Prompt → Bool) (fetch : String → Option (List Char)) :
    List ConfigFile → FS → RunOut
  | [], fs => ⟨[], [], [], fs, [], []⟩
  | c :: rest, fs =>
    let r := processConfig auto vcur oracle (fetch c.name) c fs
    let out := updateConfigsLoop auto vcur oracle fetch rest r.fs
    match r.cat with
    | .updated =>
      ⟨c.name :: out.updated, out.failed, out.unchanged, out.fs,
        r.writes ++ out.writes, r.prompts ++ out.prompts⟩
    | .failed =>
      ⟨out.updated, c.name :: out.failed, out.unchanged, out.fs,
        r.writes ++ out.writes, r.prompts ++ out.prompts⟩
    | .unchanged =>
      ⟨out.updated, out.failed, c.name :: out.unchanged, out.fs,
        r.writes ++ out.writes, r.prompts ++ out.prompts⟩

/-- `update_configs` over the managed list. -/
def updateConfigs (auto : Bool) (vcur : Option (List Char))
    (oracle : Prompt → Bool) (fetch : String → Option (List Char)) (fs : FS) :
    RunOut :=
  updateConfigsLoop auto vcur oracle fetch CONFIGS fs

/-- `first_time_setup`: no managed local file exists. -/
def firstTimeSetup (fs : FS) : Bool :=
  !(CONFIGS.any (fun c => (fs c.local_path).isSome))

/-- `CodeConfigs.__init__` followed by `update_configs`: batch mode is forced
by `-y` or by first-time setup. -/
def codeConfigsRun (skipConfirm : Bool) (vcur : Option (List Char))
    (oracle : Prompt → Bool) (fetch : String → Option (List Char)) (fs : FS) :
    RunOut :=
  let auto := skipConfirm || firstTimeSetup fs
  updateConfigs auto vcur oracle fetch fs

/-! ## Well-formedness of version strings (hypothesis vocabulary)

The marker grammar embeds the version between `"Config version: "` and
`" (auto-managed)"` and re-parses it by substring search and stripping, so
round-trip statements need the version to consist of ordinary version
characters.  All versions the tool actually uses (`"dev"` and package
versions such as `"1.2.3"`) satisfy this. -/

/-- Characters that may appear in a well-formed version string. -/
def versionChar (c : Char) : Bool :=
  c.isAlphanum || (c == '.') || (c == '-') || (c == '+') || (c == '_')

/-- Well-formed version: non-empty and made of version characters. -/
def versionOK (v : List Char) : Bool :=
  !v.isEmpty && v.all versionChar

/-! ## Concrete fixtures used by counterexamples and witnesses -/

/-- Empty filesystem (first-run state). -/
def emptyFs : FS := fun _ => none

/-- A sample remote body. -/
def remoteX : List Char := "x".toList

/-- The sample body stamped for `ruff.toml` with the development version. -/
def vcX : List Char := addVersionToContent none remoteX "ruff.toml"

/-- A filesystem in which the managed `ruff.toml` path already holds the
stamped content. -/
def fsLocalStamped : FS :=
  fun p => if p = ruffConfig.local_path then some vcX else none

/-- A filesystem in which the managed `ruff.toml` path holds plain content. -/
def fsLocalPlain : FS :=
  fun p => if p = ruffConfig.local_path then some "x".toList else none

/-- Oracle answering no to every prompt. -/
def noOracle : Prompt → Bool := fun _ => false

/-- Oracle answering yes to every prompt. -/
def yesOracle : Prompt → Bool := fun _ => true

/-- Fetch table returning the sample body for every managed name. -/
def fetchX : String → Option (List Char) := fun _ => some remoteX

/-- A content blob that already carries two marker lines. -/
def twoMarkers : List Char :=
  "# Config version: 1 (auto-managed)\n# Config version: 2 (auto-managed)".toList

/-- A content blob with exactly one marker line. -/
def oneMarker : List Char :=
  "# Config version: 0.9 (auto-managed)\n\nbody".toList

/-! ## Lemmas about the string primitives -/

theorem isPrefixOf_self_append (l t : List Char) : l.isPrefixOf (l ++ t) = true := by
  induction l with
  | nil => cases t <;> rfl
  | cons c cs ih => simp [List.isPrefixOf, ih]

theorem mem_of_isPrefixOf {sep s : List Char} {c : Char}
    (h : sep.isPrefixOf s = true) (hc : c ∈ sep) : c ∈ s := by
  induction sep generalizing s with
  | nil => cases hc
  | cons a as ih =>
    cases s with
    | nil => simp [List.isPrefixOf] at h
    | cons b bs =>
      simp only [List.isPrefixOf, Bool.and_eq_true, beq_iff_eq] at h
      rcases List.mem_cons.mp hc with rfl | hmem
      · exact h.1 ▸ List.mem_cons_self _ _
      · exact List.mem_cons_of_mem _ (ih h.2 hmem)

theorem pyIn_append (sep a b : List Char) : pyIn sep (a ++ (sep ++ b)) = true := by
  induction a with
  | nil =>
    cases sep with
    | nil => cases b <;> simp [pyIn]
    | cons s st => simp [pyIn, isPrefixOf_self_append]
  | cons c a' ih => simp [pyIn, ih]

theorem splitOnGo_no_occur {sep s : List Char} {ch : Char} (hch : ch ∈ sep)
    (hs : ch ∉ s) : ∀ {fuel : Nat} {acc : List Char}, s.length ≤ fuel →
    splitOnGo sep fuel s acc = [acc.reverse ++ s] := by
  induction s with
  | nil => intro fuel acc _; cases fuel <;> simp [splitOnGo]
  | cons c rest ih =>
    intro fuel acc hf
    cases fuel with
    | zero => simp at hf
    | succ f =>
      have hpre : sep.isPrefixOf (c :: rest) = false := by
        cases hpre : sep.isPrefixOf (c :: rest) with
        | false => rfl
        | true => exact absurd (mem_of_isPrefixOf hpre hch) hs
      have hs' : ch ∉ rest := fun h => hs (List.mem_cons_of_mem _ h)
      simp only [splitOnGo, hpre, Bool.false_eq_true, if_false]
      rw [ih hs' (by simpa using Nat.le_of_succ_le_succ hf)]
      simp

theorem splitOnGo_single {h0 : Char} {sep' a b : List Char} {ch : Char}
    (ha : h0 ∉ a) (hch : ch ∈ h0 :: sep') (hb : ch ∉ b) :
    ∀ {fuel : Nat} {acc : List Char},
      (a ++ (h0 :: sep') ++ b).length ≤ fuel →
      splitOnGo (h0 :: sep') fuel (a ++ (h0 :: sep') ++ b) acc =
        [acc.reverse ++ a, b] := by
  induction a with
  | nil =>
    intro fuel acc hf
    cases fuel with
    | zero => simp at hf
    | succ f =>
      simp only [List.nil_append] at hf ⊢
      have : (h0 :: sep') ++ b = h0 :: (sep' ++ b) := rfl
      rw [this]
      simp only [splitOnGo, isPrefixOf_self_append]
      have hdrop : (sep' ++ b).drop ((h0 :: sep').length - 1) = b := by
        simp only [List.length_cons, Nat.add_sub_cancel]
        exact List.drop_left sep' b
      rw [hdrop, splitOnGo_no_occur hch hb (by simp at hf; omega)]
      simp
  | cons c a' ih =>
    intro fuel acc hf
    cases fuel with
    | zero => simp at hf
    | succ f =>
      have hne : (h0 == c) = false := by
        have hx : h0 ≠ c := fun h => ha (h ▸ List.mem_cons_self _ _)
        simpa using hx
      have ha' : h0 ∉ a' := fun h => ha (List.mem_cons_of_mem _ h)
      have : (c :: a') ++ (h0 :: sep') ++ b = c :: (a' ++ (h0 :: sep') ++ b) := by simp
      rw [this]
      simp only [splitOnGo, List.isPrefixOf, hne, Bool.false_and,
        Bool.false_eq_true, if_false]
      rw [ih ha' (by simp at hf ⊢; omega)]
      simp

theorem splitOnSub_single {h0 : Char} {sep' a b : List Char} {ch : Char}
    (ha : h0 ∉ a) (hch : ch ∈ h0 :: sep') (hb : ch ∉ b) :
    splitOnSub (h0 :: sep') (a ++ (h0 :: sep') ++ b) = [a, b] := by
  have h := @splitOnGo_single h0 sep' a b ch ha hch hb
    ((a ++ (h0 :: sep') ++ b).length) [] (Nat.le_refl _)
  simpa [splitOnSub] using h

theorem splitOnCharGo_no_sep {sep : Char} {cs : List Char} (h : sep ∉ cs) :
    ∀ {acc : List Char}, splitOnCharGo sep cs acc = [acc.reverse ++ cs] := by
  induction cs with
  | nil => intro acc; simp [splitOnCharGo]
  | cons c rest ih =>
    intro acc
    have hc : ¬ c = sep := fun hh => h (hh ▸ List.mem_cons_self _ _)
    simp only [splitOnCharGo, hc, if_false]
    rw [ih (fun hh => h (List.mem_cons_of_mem _ hh))]
    simp

/-! ## Lemmas about line splitting and joining -/

theorem splitlinesGo_append {l : List Char} (h : '\n' ∉ l) (rest : List Char) :
    ∀ {acc : List Char},
      splitlinesGo (l ++ '\n' :: rest) acc = (acc.reverse ++ l) :: splitlinesGo rest [] := by
  induction l with
  | nil => intro acc; simp [splitlinesGo]
  | cons c l' ih =>
    intro acc
    have hc : ¬ c = '\n' := fun hh => h (hh ▸ List.mem_cons_self _ _)
    simp only [List.cons_append, splitlinesGo, hc, if_false, List.append_eq]
    rw [ih (fun hh => h (List.mem_cons_of_mem _ hh))]
    simp

theorem splitlines_append {l : List Char} (h : '\n' ∉ l) (rest : List Char) :
    splitlines (l ++ '\n' :: rest) = l :: splitlines rest := by
  unfold splitlines
  rw [splitlinesGo_append h rest]
  simp

theorem splitlinesGo_single {l : List Char} (h : '\n' ∉ l) :
    ∀ {acc : List Char},
      splitlinesGo l acc =
        if (acc.reverse ++ l).isEmpty then [] else [acc.reverse ++ l] := by
  induction l with
  | nil => intro acc; simp [splitlinesGo]
  | cons c l' ih =>
    intro acc
    have hc : ¬ c = '\n' := fun hh => h (hh ▸ List.mem_cons_self _ _)
    simp only [splitlinesGo, hc, if_false]
    rw [ih (fun hh => h (List.mem_cons_of_mem _ hh))]
    simp

theorem splitlines_single {l : List Char} (h : '\n' ∉ l) :
    splitlines l = if l.isEmpty then [] else [l] := by
  unfold splitlines
  rw [splitlinesGo_single h]
  simp

theorem splitlines_cons_newline (s : List Char) :
    splitlines ('\n' :: s) = [] :: splitlines s := by
  simp [splitlines, splitlinesGo]

theorem mem_splitlinesGo_no_newline {s : List Char} :
    ∀ {acc l : List Char}, '\n' ∉ acc → l ∈ splitlinesGo s acc → '\n' ∉ l := by
  induction s with
  | nil =>
    intro acc l hacc hl
    simp only [splitlinesGo] at hl
    split at hl
    · simp at hl
    · rcases List.mem_singleton.mp hl with rfl
      intro hmem
      exact hacc (by simpa using hmem)
  | cons c rest ih =>
    intro acc l hacc hl
    simp only [splitlinesGo] at hl
    split at hl
    · rcases List.mem_cons.mp hl with rfl | h2
      · intro hmem; exact hacc (by simpa using hmem)
      · exact ih (by simp) h2
    · rename_i hc
      refine ih ?_ hl
      intro hmem
      rcases List.mem_cons.mp hmem with h1 | h2
      · exact hc h1.symm
      · exact hacc h2

theorem mem_splitlines_no_newline {s l : List Char} (h : l ∈ splitlines s) :
    '\n' ∉ l :=
  mem_splitlinesGo_no_newline (by simp) h

theorem joinLines_cons_cons (l m : List Char) (rest : List (List Char)) :
    joinLines (l :: m :: rest) = l ++ '\n' :: joinLines (m :: rest) := rfl

theorem splitlines_joinLines {L : List (List Char)} (h : ∀ l ∈ L, '\n' ∉ l) :
    splitlines (joinLines L) = L ∨
      (L.getLast? = some [] ∧ splitlines (joinLines L) = L.dropLast) := by
  induction L with
  | nil => left; rfl
  | cons l rest ih =>
    cases rest with
    | nil =>
      have hl : '\n' ∉ l := h l (List.mem_cons_self _ _)
      by_cases he : l = []
      · right
        subst he
        constructor
        · rfl
        · simp [joinLines, splitlines, splitlinesGo]
      · left
        have : joinLines [l] = l := rfl
        rw [this, splitlines_single hl]
        simp [he]
    | cons m rest' =>
      have hl : '\n' ∉ l := h l (List.mem_cons_self _ _)
      have hrest : ∀ x ∈ m :: rest', '\n' ∉ x :=
        fun x hx => h x (List.mem_cons_of_mem _ hx)
      rw [joinLines_cons_cons, splitlines_append hl]
      rcases ih hrest with heq | ⟨hlast, heq⟩
      · left; rw [heq]
      · right
        constructor
        · rw [List.getLast?_cons_cons]
          exact hlast
        · rw [heq]
          rfl

/-! ## Lemmas about the marker scan -/

theorem findMarkerIdx_spec {L : List (List Char)} {i : Nat}
    (h : findMarkerIdx L = some i) :
    ∃ pre x post, L = pre ++ x :: post ∧ pre.length = i ∧
      isMarkerLine x = true ∧ ∀ y ∈ pre, isMarkerLine y = false := by
  induction L generalizing i with
  | nil => simp [findMarkerIdx] at h
  | cons l rest ih =>
    by_cases hl : isMarkerLine l = true
    · simp only [findMarkerIdx, hl, if_true] at h
      obtain rfl : (0 : Nat) = i := by simpa using h
      exact ⟨[], l, rest, rfl, rfl, hl, by simp⟩
    · simp only [findMarkerIdx, hl, if_false] at h
      cases hrec : findMarkerIdx rest with
      | none => rw [hrec] at h; simp at h
      | some j =>
        rw [hrec] at h
        obtain rfl : j + 1 = i := by simpa using h
        obtain ⟨pre, x, post, hL, hlen, hx, hpre⟩ := ih hrec
        refine ⟨l :: pre, x, post, by simp [hL], by simp [hlen], hx, ?_⟩
        intro y hy
        rcases List.mem_cons.mp hy with rfl | hmem
        · simpa using hl
        · exact hpre y hmem

theorem set_append_len (pre : List (List Char)) (x X : List Char)
    (post : List (List Char)) :
    (pre ++ x :: post).set pre.length X = pre ++ X :: post := by
  induction pre with
  | nil => rfl
  | cons p ps ih => simp [List.set, ih]

theorem findMarkerLine_append_of {pre : List (List Char)} {X : List Char}
    (hpre : ∀ y ∈ pre, isMarkerLine y = false) (hX : isMarkerLine X = true)
    (post : List (List Char)) :
    findMarkerLine (pre ++ X :: post) = some X := by
  induction pre with
  | nil => simp [findMarkerLine, hX]
  | cons p ps ih =>
    have hp : isMarkerLine p = false := hpre p (List.mem_cons_self _ _)
    simp only [List.cons_append, findMarkerLine, hp]
    exact ih (fun y hy => hpre y (List.mem_cons_of_mem _ hy))

theorem findMarkerLine_concat_nonmarker {M : List (List Char)}
    {e X : List Char} (h : findMarkerLine (M ++ [e]) = some X)
    (he : isMarkerLine e = false) : findMarkerLine M = some X := by
  induction M with
  | nil => simp [findMarkerLine, he] at h
  | cons m M' ih =>
    by_cases hm : isMarkerLine m = true
    · simp only [List.cons_append, findMarkerLine, hm, if_true] at h ⊢
      exact h
    · simp only [List.cons_append, findMarkerLine, hm, if_false] at h ⊢
      exact ih h

theorem isMarkerLine_nil : isMarkerLine [] = false := by decide

/-- Re-splitting the joined line list finds the same first marker line,
provided the lines are newline-free and the marker is non-empty. -/
theorem findMarkerLine_splitlines_joinLines {L : List (List Char)}
    {X : List Char} (hn : ∀ l ∈ L, '\n' ∉ l)
    (hfind : findMarkerLine L = some X) :
    findMarkerLine (splitlines (joinLines L)) = some X := by
  rcases splitlines_joinLines hn with heq | ⟨hlast, heq⟩
  · rw [heq]; exact hfind
  · rw [heq]
    have hLne : L ≠ [] := by
      intro h; rw [h] at hlast; simp at hlast
    have hgl : L.getLast hLne = [] := by
      have hx := List.getLast?_eq_getLast L hLne
      rw [hlast] at hx
      exact (Option.some.inj hx).symm
    have hrepr : L.dropLast ++ [[]] = L := by
      have := List.dropLast_concat_getLast hLne
      rw [hgl] at this
      exact this
    refine findMarkerLine_concat_nonmarker ?_ isMarkerLine_nil
    rw [hrepr]
    exact hfind

/-! ## Lemmas about stripping and version characters -/

theorem dropWhile_cons_false {p : Char → Bool} {a : Char} {l : List Char}
    (ha : p a = false) : List.dropWhile p (a :: l) = a :: l := by
  simp [List.dropWhile_cons, ha]

theorem pyStrip_sandwich {v : List Char} (hv : ∀ c ∈ v, pyIsSpace c = false)
    (hne : v ≠ []) : pyStrip (' ' :: v ++ [' ']) = v := by
  unfold pyStrip
  cases v with
  | nil => exact absurd rfl hne
  | cons c v' =>
    have hc : pyIsSpace c = false := hv c (List.mem_cons_self _ _)
    have h1 : List.dropWhile pyIsSpace (' ' :: (c :: v') ++ [' ']) =
        (c :: v') ++ [' '] := by
      simp only [List.cons_append, List.dropWhile_cons]
      norm_num [show pyIsSpace ' ' = true from rfl, hc]
    rw [h1]
    have h2 : ((c :: v') ++ [' ']).reverse = ' ' :: (c :: v').reverse := by
      simp
    rw [h2]
    have h3 : List.dropWhile pyIsSpace (' ' :: (c :: v').reverse) =
        List.dropWhile pyIsSpace ((c :: v').reverse) := by
      simp [List.dropWhile_cons, show pyIsSpace ' ' = true from rfl]
    rw [h3]
    cases hrev : (c :: v').reverse with
    | nil => simp at hrev
    | cons d w =>
      have hd : d ∈ (c :: v' : List Char) := by
        rw [← List.mem_reverse, hrev]; exact List.mem_cons_self _ _
      rw [dropWhile_cons_false (hv d hd)]
      rw [← hrev, List.reverse_reverse]

theorem pyStrip_line {a b : Char} {m : List Char} (ha : pyIsSpace a = false)
    (hb : pyIsSpace b = false) :
    pyStrip ((a :: (m ++ [b])) ++ ['\n']) = a :: (m ++ [b]) := by
  unfold pyStrip
  have h1 : List.dropWhile pyIsSpace ((a :: (m ++ [b])) ++ ['\n']) =
      (a :: (m ++ [b])) ++ ['\n'] := by
    simp only [List.cons_append, List.dropWhile_cons, ha]
    simp
  rw [h1]
  have h2 : ((a :: (m ++ [b])) ++ ['\n']).reverse =
      '\n' :: b :: (m.reverse ++ [a]) := by
    simp
  rw [h2]
  have h3 : List.dropWhile pyIsSpace ('\n' :: b :: (m.reverse ++ [a])) =
      b :: (m.reverse ++ [a]) := by
    simp [List.dropWhile_cons, show pyIsSpace '\n' = true from rfl, hb]
  rw [h3]
  simp

theorem versionChar_not_space {c : Char} (h : versionChar c = true) :
    pyIsSpace c = false := by
  cases hs : pyIsSpace c with
  | false => rfl
  | true =>
    exfalso
    simp only [pyIsSpace, Bool.or_eq_true, beq_iff_eq] at hs
    rcases hs with ((((rfl | rfl) | rfl) | rfl) | rfl) | rfl <;> simp [versionChar] at h

theorem versionChar_ne_colon {c : Char} (h : versionChar c = true) : c ≠ ':' := by
  rintro rfl; simp [versionChar] at h

theorem versionChar_ne_lparen {c : Char} (h : versionChar c = true) : c ≠ '(' := by
  rintro rfl; simp [versionChar] at h

theorem versionChar_ne_newline {c : Char} (h : versionChar c = true) : c ≠ '\n' := by
  rintro rfl; simp [versionChar] at h

theorem versionOK_all {v : List Char} (h : versionOK v = true) :
    ∀ c ∈ v, versionChar c = true := by
  have := (Bool.and_eq_true _ _).mp h
  exact fun c hc => List.all_eq_true.mp this.2 c hc

theorem versionOK_ne_nil {v : List Char} (h : versionOK v = true) : v ≠ [] := by
  have := (Bool.and_eq_true _ _).mp h
  intro hv
  rw [hv] at this
  simp at this

/-! ## The stamped marker line -/

/-- The marker line produced by stamping: comment start, the literals, and the
version in between (the comment end is `""` for every suffix). -/
def markerLineOf (cs v : List Char) : List Char := cs ++ CFGVS ++ v ++ AMS

theorem ce_empty (s : String) : (versionCommentFormat s).2 = "" := by
  unfold versionCommentFormat
  split_ifs <;> rfl

theorem cs_cases (s : String) :
    (versionCommentFormat s).1 = "; " ∨ (versionCommentFormat s).1 = "// " ∨
      (versionCommentFormat s).1 = "# " := by
  unfold versionCommentFormat
  split_ifs <;> simp

theorem markerLineOf_decomp1 (cs v : List Char) :
    markerLineOf cs v =
      cs ++ (('C' :: "onfig version:".toList) ++ (' ' :: (v ++ AMS))) := by
  unfold markerLineOf
  have h1 : CFGVS = ('C' :: "onfig version:".toList) ++ [' '] := by decide
  rw [h1]
  simp

theorem no_newline_markerLineOf {cs v : List Char} (hcs : '\n' ∉ cs)
    (hv : '\n' ∉ v) : '\n' ∉ markerLineOf cs v := by
  unfold markerLineOf
  intro hmem
  simp only [List.mem_append] at hmem
  rcases hmem with ((h | h) | h) | h
  · exact hcs h
  · revert h; decide
  · exact hv h
  · revert h; decide

theorem isMarkerLine_markerLineOf (cs v : List Char) :
    isMarkerLine (markerLineOf cs v) = true := by
  unfold isMarkerLine
  rw [Bool.and_eq_true]
  constructor
  · have h : markerLineOf cs v = cs ++ (CFGV ++ (' ' :: (v ++ AMS))) := by
      rw [markerLineOf_decomp1]
      have h2 : CFGV = 'C' :: "onfig version:".toList := by decide
      rw [h2]
    rw [h]
    exact pyIn_append CFGV cs _
  · have h : markerLineOf cs v =
        (cs ++ (CFGVS ++ (v ++ [' ', '(']))) ++ (AM ++ [')']) := by
      unfold markerLineOf
      have h3 : AMS = [' ', '('] ++ (AM ++ [')']) := by decide
      rw [h3]
      simp
    rw [h]
    exact pyIn_append AM _ _

theorem extract_markerLineOf {cs v : List Char} (hC : 'C' ∉ cs)
    (hv : versionOK v = true) :
    extractFromMarkerLine (markerLineOf cs v) = v := by
  have hvchar := versionOK_all hv
  have hb : ':' ∉ (' ' :: (v ++ AMS)) := by
    intro hmem
    rcases List.mem_cons.mp hmem with h | h
    · exact absurd h (by decide)
    · rcases List.mem_append.mp h with h | h
      · exact absurd rfl (versionChar_ne_colon (hvchar _ h))
      · revert h; decide
  have hsplit1 : splitOnSub CFGV (markerLineOf cs v) = [cs, ' ' :: (v ++ AMS)] := by
    have h2 : CFGV = 'C' :: "onfig version:".toList := by decide
    rw [markerLineOf_decomp1, h2, ← List.append_assoc]
    exact @splitOnSub_single 'C' "onfig version:".toList cs
      (' ' :: (v ++ AMS)) ':' hC (by decide) hb
  have ha' : '(' ∉ (' ' :: (v ++ [' '])) := by
    intro hmem
    rcases List.mem_cons.mp hmem with h | h
    · exact absurd h (by decide)
    · rcases List.mem_append.mp h with h | h
      · exact absurd rfl (versionChar_ne_lparen (hvchar _ h))
      · revert h; decide
  have hF2 : (' ' :: (v ++ AMS)) =
      (' ' :: (v ++ [' ']) ++ ('(' :: "auto-managed)".toList)) ++ [] := by
    have h3 : AMS = ' ' :: '(' :: "auto-managed)".toList := by decide
    rw [h3]
    simp
  have hsplit2 : splitOnSub AMP (' ' :: (v ++ AMS)) =
      [' ' :: (v ++ [' ']), []] := by
    have h4 : AMP = '(' :: "auto-managed)".toList := by decide
    rw [h4, hF2]
    exact @splitOnSub_single '(' "auto-managed)".toList
      (' ' :: (v ++ [' '])) [] '(' ha' (by decide) (by decide)
  unfold extractFromMarkerLine
  rw [hsplit1]
  have hg1 : ([cs, ' ' :: (v ++ AMS)] : List (List Char)).getD 1 [] =
      ' ' :: (v ++ AMS) := rfl
  rw [hg1, hsplit2]
  have hg0 : ([' ' :: (v ++ [' ']), []] : List (List Char)).getD 0 [] =
      ' ' :: (v ++ [' ']) := rfl
  rw [hg0]
  exact pyStrip_sandwich (fun c hc => versionChar_not_space (hvchar c hc))
    (versionOK_ne_nil hv)

theorem pyStrip_markerLine {c0 : Char} {cs' v : List Char}
    (h0 : pyIsSpace c0 = false) :
    pyStrip (markerLineOf (c0 :: cs') v ++ ['\n']) = markerLineOf (c0 :: cs') v := by
  have hshape : markerLineOf (c0 :: cs') v =
      c0 :: ((cs' ++ (CFGVS ++ (v ++ " (auto-managed".toList))) ++ [')']) := by
    unfold markerLineOf
    have h3 : AMS = " (auto-managed".toList ++ [')'] := by decide
    rw [h3]
    simp
  rw [hshape]
  exact pyStrip_line h0 (by decide)

/-- Round trip at the heart of the reconciler: the version extracted from
freshly stamped content is exactly the stamped version, for any content and
any filename, provided the version is well-formed. -/
theorem extract_addVersion (vcur : Option (List Char)) (content : List Char)
    (filename : String) (hv : versionOK (orDev vcur) = true) :
    extractVersionFromContent (addVersionToContent vcur content filename) =
      some (orDev vcur) := by
  have hce : (versionCommentFormat (pathSuffix filename)).2 = "" :=
    ce_empty _
  have hcs3 := cs_cases (pathSuffix filename)
  have hC : 'C' ∉ (versionCommentFormat (pathSuffix filename)).1.toList := by
    rcases hcs3 with h | h | h <;> rw [h] <;> decide
  have hnlcs : '\n' ∉ (versionCommentFormat (pathSuffix filename)).1.toList := by
    rcases hcs3 with h | h | h <;> rw [h] <;> decide
  have hXnl : '\n' ∉ markerLineOf (versionCommentFormat (pathSuffix filename)).1.toList (orDev vcur) :=
    no_newline_markerLineOf hnlcs
      (fun hmem => versionChar_ne_newline (versionOK_all hv _ hmem) rfl)
  have hvl : (versionCommentFormat (pathSuffix filename)).1.toList ++ CFGVS ++
      orDev vcur ++ AMS ++ (versionCommentFormat (pathSuffix filename)).2.toList ++ ['\n'] =
      markerLineOf (versionCommentFormat (pathSuffix filename)).1.toList (orDev vcur) ++ ['\n'] := by
    rw [hce]
    simp [markerLineOf]
  have hstrip : pyStrip (markerLineOf (versionCommentFormat (pathSuffix filename)).1.toList (orDev vcur) ++ ['\n']) =
      markerLineOf (versionCommentFormat (pathSuffix filename)).1.toList (orDev vcur) := by
    rcases hcs3 with h | h | h <;> rw [h] <;>
      exact pyStrip_markerLine (by decide)
  cases hidx : findMarkerIdx (splitlines content) with
  | none =>
    simp only [addVersionToContent, hidx]
    rw [hvl]
    have hra : (markerLineOf (versionCommentFormat (pathSuffix filename)).1.toList (orDev vcur) ++ ['\n']) ++ '\n' :: content =
        markerLineOf (versionCommentFormat (pathSuffix filename)).1.toList (orDev vcur) ++ '\n' :: ('\n' :: content) := by
      simp
    unfold extractVersionFromContent
    rw [hra, splitlines_append hXnl]
    have hfind : findMarkerLine
        (markerLineOf (versionCommentFormat (pathSuffix filename)).1.toList (orDev vcur) :: splitlines ('\n' :: content)) =
        some (markerLineOf (versionCommentFormat (pathSuffix filename)).1.toList (orDev vcur)) := by
      unfold findMarkerLine
      rw [isMarkerLine_markerLineOf]
      simp
    rw [hfind]
    rw [Option.map_some', extract_markerLineOf hC hv]
  | some i =>
    simp only [addVersionToContent, hidx]
    rw [hvl, hstrip]
    obtain ⟨pre, x, post, hL, hlen, _, hpre⟩ := findMarkerIdx_spec hidx
    rw [hL, ← hlen, set_append_len]
    have hfml : findMarkerLine
        (pre ++ markerLineOf (versionCommentFormat (pathSuffix filename)).1.toList (orDev vcur) :: post) =
        some (markerLineOf (versionCommentFormat (pathSuffix filename)).1.toList (orDev vcur)) :=
      findMarkerLine_append_of hpre (isMarkerLine_markerLineOf _ _) _
    have hnall : ∀ l ∈ pre ++ markerLineOf (versionCommentFormat (pathSuffix filename)).1.toList (orDev vcur) :: post,
        '\n' ∉ l := by
      intro l hl
      rcases List.mem_append.mp hl with h | h
      · exact mem_splitlines_no_newline (by rw [hL]; exact List.mem_append_left _ h)
      · rcases List.mem_cons.mp h with rfl | h2
        · exact hXnl
        · exact mem_splitlines_no_newline
            (by rw [hL]; exact List.mem_append_right _ (List.mem_cons_of_mem _ h2))
    unfold extractVersionFromContent
    rw [findMarkerLine_splitlines_joinLines hnall hfml]
    rw [Option.map_some', extract_markerLineOf hC hv]

/-! ## The success path of the reconciler -/

theorem isContentIdentical_self (x : List Char) : isContentIdentical x x = true := by
  unfold isContentIdentical
  exact beq_self_eq_true _

theorem needsUpdate_eq_of_some {fs : FS} {p : FsPath} {content : List Char}
    (h : fs p = some content) (vcur : Option (List Char)) :
    needsUpdate fs vcur p =
      (if pyFalsyOpt (extractVersionFromContent content) ||
          !(extractVersionFromContent content == some (orDev vcur)) then true
       else
         match fs (getRepoPathForConfig CONFIGS p) with
         | none => true
         | some repoContent => !(isContentIdentical content repoContent)) := by
  unfold needsUpdate
  rw [h]

theorem orDev_isEmpty_false {vcur : Option (List Char)}
    (hv : versionOK (orDev vcur) = true) : (orDev vcur).isEmpty = false := by
  have h := (Bool.and_eq_true _ _).mp hv
  have h1 := h.1
  cases hie : (orDev vcur).isEmpty with
  | false => rfl
  | true => rw [hie] at h1; simp at h1

/-- After the unconditional repository write, `needs_update` is false on any
managed path that aliases its repository path. -/
theorem needsUpdate_stamped {cfg : ConfigFile} {vcur : Option (List Char)}
    {c : List Char} {fs : FS} (hlr : cfg.local_path = cfg.repo_path)
    (hrp : getRepoPathForConfig CONFIGS cfg.local_path = cfg.repo_path)
    (hv : versionOK (orDev vcur) = true) :
    needsUpdate (fsWrite fs cfg.repo_path (addVersionToContent vcur c cfg.name))
      vcur cfg.local_path = false := by
  have hfs1 : fsWrite fs cfg.repo_path (addVersionToContent vcur c cfg.name)
      cfg.local_path = some (addVersionToContent vcur c cfg.name) := by
    rw [hlr]; simp [fsWrite]
  have hfsr : fsWrite fs cfg.repo_path (addVersionToContent vcur c cfg.name)
      (getRepoPathForConfig CONFIGS cfg.local_path) =
        some (addVersionToContent vcur c cfg.name) := by
    rw [hrp]; simp [fsWrite]
  rw [needsUpdate_eq_of_some hfs1]
  rw [extract_addVersion vcur c cfg.name hv]
  simp only [pyFalsyOpt, orDev_isEmpty_false hv, beq_self_eq_true,
    Bool.not_true, Bool.or_false, Bool.false_eq_true, if_false]
  rw [hfsr]
  simp [isContentIdentical_self]

/-- With a well-formed version, a truthy fetch of a managed file always lands
in the UNCHANGED branch: the repository write creates/overwrites the aliased
local path first, so `needs_update` never fires. -/
theorem processConfig_success {auto : Bool} {vcur : Option (List Char)}
    {oracle : Prompt → Bool} {c : List Char} {cfg : ConfigFile} {fs : FS}
    (hcfg : cfg = ruffConfig ∨ cfg = mypyConfig)
    (hv : versionOK (orDev vcur) = true) (hc : c.isEmpty = false) :
    processConfig auto vcur oracle (some c) cfg fs =
      ⟨.unchanged,
        fsWrite fs cfg.repo_path (addVersionToContent vcur c cfg.name),
        [(cfg.repo_path, addVersionToContent vcur c cfg.name)], [], .stamped⟩ := by
  have hlr : cfg.local_path = cfg.repo_path := by
    rcases hcfg with rfl | rfl <;> decide
  have hrp : getRepoPathForConfig CONFIGS cfg.local_path = cfg.repo_path := by
    rcases hcfg with rfl | rfl <;> decide
  have htr : truthyFetch (some c) = true := by simp [truthyFetch, hc]
  have hlocal : fsWrite fs cfg.repo_path (addVersionToContent vcur c cfg.name)
      cfg.local_path = some (addVersionToContent vcur c cfg.name) := by
    rw [hlr]; simp [fsWrite]
  simp only [processConfig, htr, if_true, Option.getD_some]
  rw [hlocal]
  simp only [Option.isSome_some, if_true]
  rw [needsUpdate_stamped hlr hrp hv]
  simp

/-! ## Helper lemmas for the reconciler branches -/

theorem vline_markerLine (filename : String) (v : List Char) :
    (versionCommentFormat (pathSuffix filename)).1.toList ++ CFGVS ++ v ++ AMS ++
        (versionCommentFormat (pathSuffix filename)).2.toList ++ ['\n'] =
      markerLineOf (versionCommentFormat (pathSuffix filename)).1.toList v ++ ['\n'] := by
  rw [ce_empty]
  simp [markerLineOf]

theorem pyStrip_vline (filename : String) (v : List Char) :
    pyStrip (markerLineOf (versionCommentFormat (pathSuffix filename)).1.toList v ++ ['\n']) =
      markerLineOf (versionCommentFormat (pathSuffix filename)).1.toList v := by
  rcases cs_cases (pathSuffix filename) with h | h | h <;> rw [h] <;>
    exact pyStrip_markerLine (by decide)

theorem no_newline_cs (filename : String) :
    '\n' ∉ (versionCommentFormat (pathSuffix filename)).1.toList := by
  rcases cs_cases (pathSuffix filename) with h | h | h <;> rw [h] <;> decide

theorem updateExistingConfig_auto_prompts (vcur : Option (List Char))
    (oracle : Prompt → Bool) (cfg : ConfigFile) (content : List Char) (fs : FS) :
    (updateExistingConfig true vcur oracle cfg content fs).prompts = [] := by
  simp only [updateExistingConfig]
  split_ifs <;> rfl

theorem createNewConfig_auto_prompts (oracle : Prompt → Bool) (cfg : ConfigFile)
    (content : List Char) (fs : FS) :
    (createNewConfig true oracle cfg content fs).prompts = [] := by
  simp only [createNewConfig]
  split_ifs <;> rfl

theorem useFallbackConfig_prompts (oracle : Prompt → Bool) (cfg : ConfigFile)
    (fs : FS) : ∀ pr ∈ (useFallbackConfig oracle cfg fs).prompts,
      pr.1 = Prompt.fallback cfg.name := by
  intro pr hpr
  cases hrepo : fs cfg.repo_path with
  | none =>
    simp only [useFallbackConfig, hrepo] at hpr
    simp at hpr
  | some d =>
    simp only [useFallbackConfig, hrepo] at hpr
    by_cases hloc : (fs cfg.local_path).isSome = true
    · rw [if_pos hloc] at hpr
      by_cases hor : oracle (Prompt.fallback cfg.name) = true
      · rw [if_pos hor] at hpr
        simp at hpr
        simp [hpr]
      · rw [if_neg hor] at hpr
        simp at hpr
        simp [hpr]
    · rw [if_neg hloc] at hpr
      simp at hpr

theorem processConfig_notruthy {auto : Bool} {vcur : Option (List Char)}
    {oracle : Prompt → Bool} {fetchRes : Option (List Char)}
    {cfg : ConfigFile} {fs : FS} (hf : truthyFetch fetchRes = false) :
    processConfig auto vcur oracle fetchRes cfg fs =
      ⟨if (useFallbackConfig oracle cfg fs).ok then .updated else .failed,
        (useFallbackConfig oracle cfg fs).fs,
        (useFallbackConfig oracle cfg fs).writes,
        (useFallbackConfig oracle cfg fs).prompts, .fallback⟩ := by
  simp only [processConfig, hf, Bool.false_eq_true, if_false]

theorem useFallbackConfig_none {oracle : Prompt → Bool} {cfg : ConfigFile}
    {fs : FS} (hrepo : fs cfg.repo_path = none) :
    useFallbackConfig oracle cfg fs = ⟨false, fs, [], []⟩ := by
  unfold useFallbackConfig
  rw [hrepo]

theorem useFallbackConfig_nolocal {oracle : Prompt → Bool} {cfg : ConfigFile}
    {fs : FS} {d : List Char} (hrepo : fs cfg.repo_path = some d)
    (hloc : fs cfg.local_path = none) :
    useFallbackConfig oracle cfg fs =
      ⟨true, fsWrite fs cfg.local_path d, [(cfg.local_path, d)], []⟩ := by
  unfold useFallbackConfig
  rw [hrepo]
  simp [hloc]

theorem useFallbackConfig_accept {oracle : Prompt → Bool} {cfg : ConfigFile}
    {fs : FS} {d : List Char} (hrepo : fs cfg.repo_path = some d)
    (hloc : (fs cfg.local_path).isSome = true)
    (hor : oracle (Prompt.fallback cfg.name) = true) :
    useFallbackConfig oracle cfg fs =
      ⟨true, fsWrite fs cfg.local_path d, [(cfg.local_path, d)],
        [(Prompt.fallback cfg.name, true)]⟩ := by
  unfold useFallbackConfig
  rw [hrepo]
  simp [hloc, hor]

theorem useFallbackConfig_decline {oracle : Prompt → Bool} {cfg : ConfigFile}
    {fs : FS} {d : List Char} (hrepo : fs cfg.repo_path = some d)
    (hloc : (fs cfg.local_path).isSome = true)
    (hor : oracle (Prompt.fallback cfg.name) = false) :
    useFallbackConfig oracle cfg fs =
      ⟨false, fs, [], [(Prompt.fallback cfg.name, false)]⟩ := by
  unfold useFallbackConfig
  rw [hrepo]
  simp [hloc, hor]

/-! ## Marker counting lemmas -/

theorem findMarkerIdx_none_count {L : List (List Char)}
    (h : findMarkerIdx L = none) :
    (L.filter (fun l => isMarkerLine l)).length = 0 := by
  induction L with
  | nil => rfl
  | cons l rest ih =>
    by_cases hl : isMarkerLine l = true
    · simp [findMarkerIdx, hl] at h
    · simp only [findMarkerIdx, hl, if_false] at h
      have hl' : isMarkerLine l = false := by
        cases hx : isMarkerLine l with
        | false => rfl
        | true => exact absurd hx hl
      rw [List.filter_cons]
      simp only [hl', Bool.false_eq_true, if_false]
      cases hrec : findMarkerIdx rest with
      | none => exact ih hrec
      | some j => rw [hrec] at h; simp at h

theorem countMarkers_concat_nil (M : List (List Char)) :
    ((M ++ [[]]).filter (fun l => isMarkerLine l)).length =
      (M.filter (fun l => isMarkerLine l)).length := by
  rw [List.filter_append]
  simp [isMarkerLine_nil]

theorem countMarkers_splitlines_joinLines {L : List (List Char)}
    (hn : ∀ l ∈ L, '\n' ∉ l) :
    ((splitlines (joinLines L)).filter (fun l => isMarkerLine l)).length =
      (L.filter (fun l => isMarkerLine l)).length := by
  rcases splitlines_joinLines hn with heq | ⟨hlast, heq⟩
  · rw [heq]
  · rw [heq]
    have hLne : L ≠ [] := by
      intro h; rw [h] at hlast; simp at hlast
    have hgl : L.getLast hLne = [] := by
      have hx := List.getLast?_eq_getLast L hLne
      rw [hlast] at hx
      exact (Option.some.inj hx).symm
    have hrepr : L.dropLast ++ [[]] = L := by
      have hy := List.dropLast_concat_getLast hLne
      rw [hgl] at hy
      exact hy
    conv_rhs => rw [← hrepr]
    rw [countMarkers_concat_nil]

theorem countMarkers_set_marker {pre post : List (List Char)} {x X : List Char}
    (hx : isMarkerLine x = true) (hX : isMarkerLine X = true) :
    ((pre ++ X :: post).filter (fun l => isMarkerLine l)).length =
      ((pre ++ x :: post).filter (fun l => isMarkerLine l)).length := by
  rw [List.filter_append, List.filter_append, List.filter_cons, List.filter_cons]
  simp [hx, hX]

/-! ## Claim theorems -/

/-- C1: for a managed file whose fetch succeeds and whose stamped remote
content is byte-identical to the existing local content, the run does
categorize the file as unchanged — but, contrary to the claim, a write to
`local_path` does occur: the unconditional repository write targets
`repo_path`, which `ConfigFile.__post_init__` makes equal to `local_path`
for the flat managed names.  Evaluated at the failing input: local content
already equal to the stamped remote body `"x"` under version `dev`. -/
theorem C1_unchanged_but_local_write_eval :
    (processConfig false none noOracle (some remoteX) ruffConfig fsLocalStamped).cat =
        Cat.unchanged ∧
    (processConfig false none noOracle (some remoteX) ruffConfig fsLocalStamped).writes =
        [(ruffConfig.local_path, vcX)] ∧
    (processConfig false none noOracle (some remoteX) ruffConfig fsLocalStamped).fs
        ruffConfig.local_path = fsLocalStamped ruffConfig.local_path := by
  decide

/-- C2: on a first run (no managed file exists locally, batch mode forced),
the claim says every successfully fetched file is routed to the create branch
and lands in the updated list.  Evaluating the code: the unconditional
repository write creates the aliased `local_path` first, so the create branch
is never reached, no prompt is presented, and both files land in the
unchanged list while the updated list stays empty — even though the stamped
content has in fact been written to `local_path`. -/
theorem C2_first_run_eval :
    firstTimeSetup emptyFs = true ∧
    (codeConfigsRun false none noOracle fetchX emptyFs).updated = [] ∧
    (codeConfigsRun false none noOracle fetchX emptyFs).unchanged =
        ["ruff.toml", "mypy.ini"] ∧
    (codeConfigsRun false none noOracle fetchX emptyFs).failed = [] ∧
    (codeConfigsRun false none noOracle fetchX emptyFs).prompts = [] ∧
    (codeConfigsRun false none noOracle fetchX emptyFs).fs ruffConfig.local_path =
        some vcX := by
  decide

/-- C3: for every `ConfigFile` whose name contains no directory separator,
the computed `local_path` equals the computed `repo_path`, so the working
copy and the cache/repository copy denote the same file. -/
theorem C3_flat_name_paths_eq (name : String) (h : '/' ∉ name.toList) :
    (mkConfigFile name).local_path = (mkConfigFile name).repo_path := by
  have hcomp : pathComponentsOf name = [name] := by
    unfold pathComponentsOf
    rw [splitOnCharGo_no_sep h]
    simp only [List.reverse_nil, List.nil_append, List.map]
    have hmk : String.mk name.toList = name := by cases name; rfl
    rw [hmk]
  simp only [mkConfigFile, repoRoot, hcomp, List.nil_append, pathNameOf]
  simp [List.getLastD]

/-- Witness for C3 at both actual managed names. -/
theorem C3_flat_name_paths_eq_witness :
    ('/' ∉ "ruff.toml".toList ∧
      (mkConfigFile "ruff.toml").local_path = (mkConfigFile "ruff.toml").repo_path) ∧
    ('/' ∉ "mypy.ini".toList ∧
      (mkConfigFile "mypy.ini").local_path = (mkConfigFile "mypy.ini").repo_path) :=
  ⟨⟨by decide, C3_flat_name_paths_eq "ruff.toml" (by decide)⟩,
   ⟨by decide, C3_flat_name_paths_eq "mypy.ini" (by decide)⟩⟩

/-- C4 counterexample: in batch mode (auto-confirm on), a failed fetch with
an existing repository and local copy still presents the fallback
confirmation prompt, and a declining answer routes the file to the failed
list — so batch mode does not suppress all prompts and does not always take
the accepting branch. -/
theorem C4_batch_fallback_prompt_cex :
    (processConfig true none noOracle none ruffConfig fsLocalPlain).prompts =
        [(Prompt.fallback "ruff.toml", false)] ∧
    (processConfig true none noOracle none ruffConfig fsLocalPlain).cat =
        Cat.failed := by
  decide

/-- C4 (amended): when batch mode is active no update or create prompt is
presented — on any truthy fetch the prompt list is empty — and the only
prompt that can ever be presented is the fallback confirmation, which the
source presents regardless of batch mode. -/
theorem C4_batch_prompts (vcur : Option (List Char)) (oracle : Prompt → Bool)
    (fetchRes : Option (List Char)) (cfg : ConfigFile) (fs : FS) :
    (truthyFetch fetchRes = true →
      (processConfig true vcur oracle fetchRes cfg fs).prompts = []) ∧
    (∀ pr ∈ (processConfig true vcur oracle fetchRes cfg fs).prompts,
      pr.1 = Prompt.fallback cfg.name) := by
  have hsucc : truthyFetch fetchRes = true →
      (processConfig true vcur oracle fetchRes cfg fs).prompts = [] := by
    intro htr
    simp only [processConfig, htr, if_true]
    split_ifs <;>
      simp [updateExistingConfig_auto_prompts, createNewConfig_auto_prompts]
  refine ⟨hsucc, ?_⟩
  intro pr hpr
  by_cases htr : truthyFetch fetchRes = true
  · rw [hsucc htr] at hpr
    simp at hpr
  · have hf : truthyFetch fetchRes = false := Bool.eq_false_iff.mpr htr
    rw [processConfig_notruthy hf] at hpr
    exact useFallbackConfig_prompts oracle cfg fs pr hpr

/-- Witness for C4 at a concrete truthy fetch. -/
theorem C4_batch_prompts_witness :
    truthyFetch (some remoteX) = true ∧
    (processConfig true none yesOracle (some remoteX) ruffConfig fsLocalPlain).prompts =
      [] :=
  ⟨by decide,
   (C4_batch_prompts none yesOracle (some remoteX) ruffConfig fsLocalPlain).1
     (by decide)⟩

/-- C5 counterexample: a 2xx response with an empty body is a successful
fetch by the claim, yet the walrus truthiness test sends it down the fallback
path — here with no cache available the file is counted failed and no
stamping write happens at all. -/
theorem C5_empty_body_cex :
    (processConfig true none noOracle (some []) ruffConfig emptyFs).route =
        Route.fallback ∧
    (processConfig true none noOracle (some []) ruffConfig emptyFs).cat =
        Cat.failed ∧
    (processConfig true none noOracle (some []) ruffConfig emptyFs).writes = [] := by
  decide

/-- C5 (amended): the fallback path is entered exactly when the fetch fails
or returns an empty body (Python truthiness conflates the two); every fetch
with a non-empty body proceeds to stamping, whose first write is the stamped
content to the repository path. -/
theorem C5_fallback_iff (auto : Bool) (vcur : Option (List Char))
    (oracle : Prompt → Bool) (fetchRes : Option (List Char)) (cfg : ConfigFile)
    (fs : FS) :
    ((processConfig auto vcur oracle fetchRes cfg fs).route = Route.fallback ↔
      (fetchRes = none ∨ fetchRes = some [])) ∧
    ((processConfig auto vcur oracle fetchRes cfg fs).route = Route.stamped →
      (processConfig auto vcur oracle fetchRes cfg fs).writes.take 1 =
        [(cfg.repo_path, addVersionToContent vcur (fetchRes.getD []) cfg.name)]) := by
  rcases fetchRes with _ | c
  · simp [processConfig, truthyFetch]
  · cases c with
    | nil => simp [processConfig, truthyFetch]
    | cons ch t =>
      have htr : truthyFetch (some (ch :: t)) = true := by simp [truthyFetch]
      simp only [processConfig, htr, if_true]
      constructor
      · constructor
        · intro h
          split_ifs at h <;> simp at h
        · intro h
          rcases h with h | h <;> simp at h
      · intro _
        split_ifs <;> simp [List.take]

/-- Witness for C5 at a concrete non-empty body. -/
theorem C5_fallback_iff_witness :
    (processConfig true none yesOracle (some remoteX) ruffConfig emptyFs).route =
        Route.stamped ∧
    (processConfig true none yesOracle (some remoteX) ruffConfig emptyFs).writes.take 1 =
      [(ruffConfig.repo_path,
        addVersionToContent none ((some remoteX).getD []) ruffConfig.name)] :=
  ⟨by decide,
   (C5_fallback_iff true none yesOracle (some remoteX) ruffConfig emptyFs).2
     (by decide)⟩

/-- C6: whenever the user declines a prompt, the local file keeps the content
it had before the run processed the file, and the file is never categorized
as updated: a declined fallback prompt yields the failed category, and — with
a well-formed version — the update and create prompts are never presented at
all (the aliased repository write always makes `needs_update` false), so
their decline cases hold vacuously. -/
theorem C6_decline_keeps_state (auto : Bool) (vcur : Option (List Char))
    (oracle : Prompt → Bool) (fetchRes : Option (List Char)) (cfg : ConfigFile)
    (fs : FS) (hcfg : cfg = ruffConfig ∨ cfg = mypyConfig)
    (hv : versionOK (orDev vcur) = true) :
    ∀ pr ∈ (processConfig auto vcur oracle fetchRes cfg fs).prompts,
      pr.2 = false →
        (processConfig auto vcur oracle fetchRes cfg fs).fs cfg.local_path =
            fs cfg.local_path ∧
        (processConfig auto vcur oracle fetchRes cfg fs).cat ≠ Cat.updated ∧
        (pr.1 = Prompt.fallback cfg.name →
          (processConfig auto vcur oracle fetchRes cfg fs).cat = Cat.failed) ∧
        ((∃ a b, pr.1 = Prompt.updateVersion cfg.name a b) ∨
            pr.1 = Prompt.updateConfig cfg.name ∨
            pr.1 = Prompt.createConfig cfg.name →
          (processConfig auto vcur oracle fetchRes cfg fs).cat = Cat.unchanged) := by
  by_cases htr : truthyFetch fetchRes = true
  · rcases fetchRes with _ | c
    · simp [truthyFetch] at htr
    · have hc : c.isEmpty = false := by simpa [truthyFetch] using htr
      rw [processConfig_success hcfg hv hc]
      intro pr hpr
      simp at hpr
  · have hf : truthyFetch fetchRes = false := Bool.eq_false_iff.mpr htr
    rw [processConfig_notruthy hf]
    cases hrepo : fs cfg.repo_path with
    | none =>
      rw [useFallbackConfig_none hrepo]
      intro pr hpr
      simp at hpr
    | some d =>
      cases hloc : fs cfg.local_path with
      | none =>
        rw [useFallbackConfig_nolocal hrepo hloc]
        intro pr hpr
        simp at hpr
      | some lv =>
        have hloc' : (fs cfg.local_path).isSome = true := by
          rw [hloc]; rfl
        by_cases hor : oracle (Prompt.fallback cfg.name) = true
        · rw [useFallbackConfig_accept hrepo hloc' hor]
          intro pr hpr hdecl
          have hpr' : pr = (Prompt.fallback cfg.name, true) := by simpa using hpr
          rw [hpr'] at hdecl
          simp at hdecl
        · have hor' : oracle (Prompt.fallback cfg.name) = false :=
            Bool.eq_false_iff.mpr hor
          rw [useFallbackConfig_decline hrepo hloc' hor']
          intro pr hpr hdecl
          have hpr' : pr = (Prompt.fallback cfg.name, false) := by simpa using hpr
          subst hpr'
          refine ⟨hloc, by simp, fun _ => by simp, fun hk => ?_⟩
          rcases hk with ⟨a, b, h⟩ | h | h <;> simp at h

/-- Witness for C6: a declined fallback prompt on a concrete state. -/
theorem C6_decline_keeps_state_witness :
    versionOK (orDev none) = true ∧
    (processConfig false none noOracle none ruffConfig fsLocalPlain).fs
        ruffConfig.local_path = fsLocalPlain ruffConfig.local_path ∧
    (processConfig false none noOracle none ruffConfig fsLocalPlain).cat =
        Cat.failed :=
  ⟨by decide,
   (C6_decline_keeps_state false none noOracle none ruffConfig fsLocalPlain
      (Or.inl rfl) (by decide) (Prompt.fallback "ruff.toml", false) (by decide)
      rfl).1,
   (C6_decline_keeps_state false none noOracle none ruffConfig fsLocalPlain
      (Or.inl rfl) (by decide) (Prompt.fallback "ruff.toml", false) (by decide)
      rfl).2.2.1 rfl⟩

/-- C7: after a failed fetch, the file is counted failed when the cache copy
is missing; otherwise the cache copy is copied to `local_path` and the file
is counted updated when the local file is absent or the prompt is accepted,
and counted failed with the local file untouched when the prompt is
refused. -/
theorem C7_fallback_behavior (auto : Bool) (vcur : Option (List Char))
    (oracle : Prompt → Bool) (cfg : ConfigFile) (fs : FS) :
    (fs cfg.repo_path = none →
      (processConfig auto vcur oracle none cfg fs).cat = Cat.failed ∧
      (processConfig auto vcur oracle none cfg fs).fs cfg.local_path =
        fs cfg.local_path ∧
      (processConfig auto vcur oracle none cfg fs).writes = []) ∧
    (∀ d, fs cfg.repo_path = some d → fs cfg.local_path = none →
      (processConfig auto vcur oracle none cfg fs).cat = Cat.updated ∧
      (processConfig auto vcur oracle none cfg fs).fs cfg.local_path = some d) ∧
    (∀ d, fs cfg.repo_path = some d → (fs cfg.local_path).isSome = true →
      oracle (Prompt.fallback cfg.name) = true →
      (processConfig auto vcur oracle none cfg fs).cat = Cat.updated ∧
      (processConfig auto vcur oracle none cfg fs).fs cfg.local_path = some d) ∧
    (∀ d, fs cfg.repo_path = some d → (fs cfg.local_path).isSome = true →
      oracle (Prompt.fallback cfg.name) = false →
      (processConfig auto vcur oracle none cfg fs).cat = Cat.failed ∧
      (processConfig auto vcur oracle none cfg fs).fs cfg.local_path =
        fs cfg.local_path) := by
  have hf : truthyFetch none = false := rfl
  refine ⟨?_, ?_, ?_, ?_⟩
  · intro hrepo
    rw [processConfig_notruthy hf, useFallbackConfig_none hrepo]
    exact ⟨rfl, rfl, rfl⟩
  · intro d hrepo hloc
    rw [processConfig_notruthy hf, useFallbackConfig_nolocal hrepo hloc]
    refine ⟨rfl, ?_⟩
    simp [fsWrite]
  · intro d hrepo hloc hor
    rw [processConfig_notruthy hf, useFallbackConfig_accept hrepo hloc hor]
    refine ⟨rfl, ?_⟩
    simp [fsWrite]
  · intro d hrepo hloc hor
    rw [processConfig_notruthy hf, useFallbackConfig_decline hrepo hloc hor]
    exact ⟨rfl, rfl⟩

/-- Witness for C7: accepted fallback prompt on a concrete state. -/
theorem C7_fallback_behavior_witness :
    fsLocalPlain ruffConfig.repo_path = some "x".toList ∧
    (fsLocalPlain ruffConfig.local_path).isSome = true ∧
    yesOracle (Prompt.fallback ruffConfig.name) = true ∧
    (processConfig false none yesOracle none ruffConfig fsLocalPlain).cat =
        Cat.updated ∧
    (processConfig false none yesOracle none ruffConfig fsLocalPlain).fs
        ruffConfig.local_path = some "x".toList :=
  ⟨by decide, by decide, rfl,
   ((C7_fallback_behavior false none yesOracle ruffConfig fsLocalPlain).2.2.1
      "x".toList (by decide) (by decide) rfl).1,
   ((C7_fallback_behavior false none yesOracle ruffConfig fsLocalPlain).2.2.1
      "x".toList (by decide) (by decide) rfl).2⟩

/-- C8 counterexample: the claim quantifies over every version string, but a
version with trailing whitespace does not survive the round trip — stamping
`"1.0 "` into marker-free content and extracting yields `"1.0"`. -/
theorem C8_roundtrip_cex :
    (∀ l ∈ splitlines "body".toList, isMarkerLine l = false) ∧
    extractVersionFromContent
        (addVersionToContent (some "1.0 ".toList) "body".toList "ruff.toml") =
      some "1.0".toList ∧
    orDev (some "1.0 ".toList) = "1.0 ".toList ∧
    "1.0".toList ≠ "1.0 ".toList := by
  decide

/-- C8 (amended): for every content blob with no marker line, every filename,
and every well-formed version string (non-empty, made of alphanumerics and
`.`, `-`, `+`, `_` — which covers `dev` and all real package versions),
stamping then extracting returns exactly the stamped version. -/
theorem C8_roundtrip (vcur : Option (List Char)) (content : List Char)
    (filename : String) (hv : versionOK (orDev vcur) = true)
    (hnm : ∀ l ∈ splitlines content, isMarkerLine l = false) :
    extractVersionFromContent (addVersionToContent vcur content filename) =
      some (orDev vcur) :=
  extract_addVersion vcur content filename hv

/-- Witness for C8 on marker-free content under the development version. -/
theorem C8_roundtrip_witness :
    versionOK (orDev none) = true ∧
    (∀ l ∈ splitlines "body".toList, isMarkerLine l = false) ∧
    extractVersionFromContent
        (addVersionToContent none "body".toList "ruff.toml") =
      some (orDev none) :=
  ⟨by decide, by decide,
   C8_roundtrip none "body".toList "ruff.toml" (by decide) (by decide)⟩

/-- C9 counterexample: the claim's first half quantifies over every blob that
contains a marker line, but a blob that already carries two marker lines
still carries two after stamping — only the first is replaced, so the result
is not "exactly one marker line". -/
theorem C9_two_marker_cex :
    1 ≤ markerCount twoMarkers ∧
    markerCount (addVersionToContent none twoMarkers "ruff.toml") = 2 := by
  decide

/-- C9 (amended): for a newline-free version, stamping preserves the
at-most-one-marker invariant, and on a blob with exactly one marker line it
replaces that line in place — the first marker line is overwritten with the
fresh marker — yielding exactly one marker line. -/
theorem C9_marker_invariant (vcur : Option (List Char)) (content : List Char)
    (filename : String) (hnl : '\n' ∉ orDev vcur) :
    (markerCount content ≤ 1 →
      markerCount (addVersionToContent vcur content filename) ≤ 1) ∧
    (markerCount content = 1 →
      markerCount (addVersionToContent vcur content filename) = 1 ∧
      ∃ i, findMarkerIdx (splitlines content) = some i ∧
        addVersionToContent vcur content filename =
          joinLines ((splitlines content).set i
            (markerLineOf (versionCommentFormat (pathSuffix filename)).1.toList
              (orDev vcur)))) := by
  have hXnl : '\n' ∉ markerLineOf (versionCommentFormat (pathSuffix filename)).1.toList (orDev vcur) :=
    no_newline_markerLineOf (no_newline_cs filename) hnl
  cases hidx : findMarkerIdx (splitlines content) with
  | none =>
    have hcnt0 : ((splitlines content).filter (fun l => isMarkerLine l)).length = 0 :=
      findMarkerIdx_none_count hidx
    have heq : addVersionToContent vcur content filename =
        markerLineOf (versionCommentFormat (pathSuffix filename)).1.toList (orDev vcur) ++
          '\n' :: ('\n' :: content) := by
      simp only [addVersionToContent, hidx]
      rw [vline_markerLine]
      simp
    constructor
    · intro _
      rw [heq]
      unfold markerCount
      rw [splitlines_append hXnl, splitlines_cons_newline]
      rw [List.filter_cons, List.filter_cons]
      simp only [isMarkerLine_markerLineOf, isMarkerLine_nil, if_true,
        Bool.false_eq_true, if_false]
      simp [hcnt0]
    · intro hcnt1
      unfold markerCount at hcnt1
      rw [hcnt0] at hcnt1
      simp at hcnt1
  | some i =>
    obtain ⟨pre, x, post, hL, hlen, hx, hpre⟩ := findMarkerIdx_spec hidx
    have heq : addVersionToContent vcur content filename =
        joinLines ((splitlines content).set i
          (markerLineOf (versionCommentFormat (pathSuffix filename)).1.toList (orDev vcur))) := by
      simp only [addVersionToContent, hidx]
      rw [vline_markerLine, pyStrip_vline]
    have hset : (splitlines content).set i
        (markerLineOf (versionCommentFormat (pathSuffix filename)).1.toList (orDev vcur)) =
          pre ++ markerLineOf (versionCommentFormat (pathSuffix filename)).1.toList (orDev vcur) :: post := by
      rw [hL, ← hlen, set_append_len]
    have hnall : ∀ l ∈ pre ++ markerLineOf (versionCommentFormat (pathSuffix filename)).1.toList (orDev vcur) :: post,
        '\n' ∉ l := by
      intro l hl
      rcases List.mem_append.mp hl with h | h
      · exact mem_splitlines_no_newline (by rw [hL]; exact List.mem_append_left _ h)
      · rcases List.mem_cons.mp h with rfl | h2
        · exact hXnl
        · exact mem_splitlines_no_newline
            (by rw [hL]; exact List.mem_append_right _ (List.mem_cons_of_mem _ h2))
    have hcount : markerCount (addVersionToContent vcur content filename) =
        markerCount content := by
      rw [heq, hset]
      unfold markerCount
      rw [countMarkers_splitlines_joinLines hnall, hL]
      exact countMarkers_set_marker hx (isMarkerLine_markerLineOf _ _)
    constructor
    · intro hle
      rw [hcount]
      exact hle
    · intro hcnt1
      refine ⟨by rw [hcount]; exact hcnt1, i, rfl, heq⟩

/-- Witness for C9 on a blob with exactly one marker line. -/
theorem C9_marker_invariant_witness :
    ('\n' ∉ orDev none) ∧ markerCount oneMarker = 1 ∧
    markerCount (addVersionToContent none oneMarker "ruff.toml") = 1 :=
  ⟨by decide, by decide,
   ((C9_marker_invariant none oneMarker "ruff.toml" (by decide)).2 (by decide)).1⟩

/-- C10: with the remote content and package version unchanged, processing a
managed file a second time from the state the first run left behind yields
the unchanged outcome (and leaves the local content as the first run wrote
it). -/
theorem C10_idempotent (auto1 auto2 : Bool) (vcur : Option (List Char))
    (oracle1 oracle2 : Prompt → Bool) (c : List Char) (cfg : ConfigFile)
    (fs : FS) (hcfg : cfg = ruffConfig ∨ cfg = mypyConfig)
    (hv : versionOK (orDev vcur) = true) (hc : c.isEmpty = false) :
    (processConfig auto2 vcur oracle2 (some c) cfg
        (processConfig auto1 vcur oracle1 (some c) cfg fs).fs).cat =
      Cat.unchanged ∧
    (processConfig auto2 vcur oracle2 (some c) cfg
        (processConfig auto1 vcur oracle1 (some c) cfg fs).fs).fs cfg.local_path =
      (processConfig auto1 vcur oracle1 (some c) cfg fs).fs cfg.local_path := by
  have h1 := @processConfig_success auto1 vcur oracle1 c cfg fs hcfg hv hc
  have hfs : (processConfig auto1 vcur oracle1 (some c) cfg fs).fs =
      fsWrite fs cfg.repo_path (addVersionToContent vcur c cfg.name) := by
    rw [h1]
  rw [hfs]
  have h2 := @processConfig_success auto2 vcur oracle2 c cfg
    (fsWrite fs cfg.repo_path (addVersionToContent vcur c cfg.name)) hcfg hv hc
  rw [h2]
  have hlr : cfg.local_path = cfg.repo_path := by
    rcases hcfg with rfl | rfl <;> decide
  constructor
  · rfl
  · rw [hlr]
    simp [fsWrite]

/-- Witness for C10 at a concrete body and the development version. -/
theorem C10_idempotent_witness :
    versionOK (orDev none) = true ∧ remoteX.isEmpty = false ∧
    (processConfig true none noOracle (some remoteX) ruffConfig
        (processConfig true none noOracle (some remoteX) ruffConfig emptyFs).fs).cat =
      Cat.unchanged :=
  ⟨by decide, by decide,
   (C10_idempotent true true none noOracle noOracle remoteX ruffConfig emptyFs
      (Or.inl rfl) (by decide) (by decide)).1⟩
